import Mathlib

set_option maxRecDepth 8000
set_option maxHeartbeats 1000000

/-!
Verification development for the resume-analyzer RAG pipeline
(`rag_pipeline.py` / `app.py`).

The pipeline is a thin orchestration over external services
(PyPDF loader, OpenAI embeddings, Chroma vector index, ChatOpenAI
generation) plus the langchain `RecursiveCharacterTextSplitter`,
configured in `rag_pipeline.py` with `chunk_size=500`,
`chunk_overlap=50`, `length_function=len` and separators
`["\n\n", "\n", " ", ""]`.

Python strings are embedded as `List Char` (`PyStr`), so the
`length_function=len` of the splitter is `List.length`, and every
operation is executable by the kernel.
-/

/-- Python strings, embedded as their character lists. -/
abbrev PyStr := List Char

/-- Python `str.strip()` with no argument: remove leading and trailing
whitespace (the source texts are ASCII, where Python and Lean agree on
what is whitespace). -/
def pyStrip (s : PyStr) : PyStr :=
  ((s.dropWhile Char.isWhitespace).reverse.dropWhile Char.isWhitespace).reverse

/-- The scanning loop of Python `str.split(sep)` / `re.split` on a literal,
non-empty separator: scan left to right, closing the current piece (held
reversed in `acc`) at each non-overlapping occurrence of `sep`.

The `fuel` argument makes the recursion structural; every step consumes at
least one character, so `fuel = text.length` never reaches the `0` case
(the `0` case dumps the rest into the current piece, which is unreachable
and irrelevant for `fuel ≥ text.length`). -/
def splitOnGo (sep : PyStr) : Nat → PyStr → PyStr → List PyStr
  | _, [], acc => [acc.reverse]
  | 0, text, acc => [acc.reverse ++ text]
  | fuel + 1, c :: rest, acc =>
    if sep.isPrefixOf (c :: rest) then
      acc.reverse :: splitOnGo sep fuel ((c :: rest).drop sep.length) []
    else
      splitOnGo sep fuel rest (c :: acc)

/-- Python `text.split(sep)` for a non-empty literal separator (the empty
separator never reaches a split call in the embedded code path). -/
def pySplitOn (sep text : PyStr) : List PyStr :=
  if sep = [] then [text] else splitOnGo sep text.length text []

/-- The function `langchain.text_splitter._split_text_with_regex` with a literal
(escaped) separator and `keep_separator=True`, as used by
`RecursiveCharacterTextSplitter`: split on the separator, re-attach each
separator occurrence to the piece that follows it, and drop empty pieces.
The empty separator splits into single characters (`list(text)`). -/
def splitTextWithSep (text sep : PyStr) : List PyStr :=
  let splits :=
    if sep = [] then
      text.map (fun c => [c])
    else
      match pySplitOn sep text with
      | [] => []
      | p :: ps => p :: ps.map (fun q => sep ++ q)
  splits.filter (fun s => s ≠ [])

/-- Python `re.search(re.escape(sep), text)` for a non-empty literal separator:
does `sep` occur in `text` (the split has more than one piece exactly when
the separator occurs). -/
def occursIn (sep text : PyStr) : Bool :=
  (pySplitOn sep text).length > 1

/-- The separator-selection loop at the top of
`RecursiveCharacterTextSplitter._split_text`: take the first separator
that is `""` (chosen with no fallback separators) or occurs in the text
(chosen with the remaining separators as fallback); if none fires, the
default is the last separator of the original list, with no fallback. -/
def chooseSepAux (text dflt : PyStr) : List PyStr → PyStr × List PyStr
  | [] => (dflt, [])
  | s :: rest =>
    if s = [] then ([], [])
    else if occursIn s text then (s, rest)
    else chooseSepAux text dflt rest

/-- The accumulation pattern of `_split_text`'s main loop, reified:
partition the split pieces, in order, into maximal runs of "good" pieces
(`len < chunk_size`, to be merged) and oversized pieces (to be re-split or
emitted as-is). -/
def groupSplits (cs : Nat) : List PyStr → List (List PyStr ⊕ PyStr)
  | [] => []
  | s :: rest =>
    if s.length < cs then
      match groupSplits cs rest with
      | Sum.inl run :: gs => Sum.inl (s :: run) :: gs
      | gs => Sum.inl [s] :: gs
    else
      Sum.inr s :: groupSplits cs rest

/-- The method `TextSplitter._join_docs`: join with the separator, strip whitespace
(`strip_whitespace` defaults to `True`), return `None` if empty. -/
def joinDocs (sep : PyStr) (docs : List PyStr) : Option PyStr :=
  let text := pyStrip (List.intercalate sep docs)
  if text = [] then none else some text

/-- The overlap-retention `while` loop inside `TextSplitter._merge_splits`:
pop pieces off the front of `current_doc` while the running total exceeds
`chunk_overlap`, or while together with the incoming piece (of length
`dLen`) it would exceed `chunk_size`. -/
def popLoop (cs ov sepLen dLen : Nat) : List PyStr → Nat → List PyStr × Nat
  | [], total => ([], total)
  | c :: rest, total =>
    if total > ov ∨ (total + dLen + (if rest = [] then 0 else sepLen) > cs ∧ total > 0) then
      popLoop cs ov sepLen dLen rest (total - (c.length + (if rest = [] then 0 else sepLen)))
    else
      (c :: rest, total)

/-- The main loop of `TextSplitter._merge_splits`. State: the emitted
documents, `current_doc`, and the running `total` length. When the
incoming piece would overflow `chunk_size`, the current document is
emitted (if non-empty) and the overlap-retention loop runs; the piece is
then appended and the total updated, exactly as in the Python loop. -/
def mergeGo (cs ov : Nat) (sep : PyStr) : List PyStr → List PyStr → List PyStr → Nat → List PyStr
  | [], docs, cur, _ => docs ++ (joinDocs sep cur).toList
  | d :: ds, docs, cur, total =>
    if total + d.length + (if cur = [] then 0 else sep.length) > cs then
      if cur = [] then
        mergeGo cs ov sep ds docs [d] d.length
      else
        let docs2 := docs ++ (joinDocs sep cur).toList
        let pt := popLoop cs ov sep.length d.length cur total
        mergeGo cs ov sep ds docs2 (pt.1 ++ [d])
          (pt.2 + d.length + (if pt.1 = [] then 0 else sep.length))
    else
      mergeGo cs ov sep ds docs (cur ++ [d])
        (total + d.length + (if cur = [] then 0 else sep.length))

/-- The method `TextSplitter._merge_splits(splits, separator)`. In the recursive
splitter's code path `keep_separator=True`, so the merge separator is
always `""` (`[]`). -/
def mergeSplits (cs ov : Nat) (sep : PyStr) (splits : List PyStr) : List PyStr :=
  mergeGo cs ov sep splits [] [] 0

/-- The method `RecursiveCharacterTextSplitter._split_text(text, separators)`:
choose the first applicable separator, split keeping separators, merge
maximal runs of small pieces (joined by `""` since `keep_separator=True`),
and re-split oversized pieces with the remaining separators — emitting
an oversized piece as-is when no separators remain.

`fuel` makes the recursion structural: each recursive call strictly
shrinks the separator list, so `fuel = separators.length` never reaches
the `0` case. -/
def splitTextF (cs ov : Nat) : Nat → List PyStr → PyStr → List PyStr
  | 0, _, _ => []
  | fuel + 1, seps, text =>
    let p := chooseSepAux text (seps.getLastD []) seps
    let groups := groupSplits cs (splitTextWithSep text p.1)
    (groups.map (fun g =>
      match g with
      | Sum.inl run => mergeSplits cs ov [] run
      | Sum.inr s => if p.2 = [] then [s] else splitTextF cs ov fuel p.2 s)).flatten

/-! Configuration constants of `rag_pipeline.py` (lines 15-19). -/

/-- Configuration `CHUNK_SIZE = 500` (rag_pipeline.py line 16). -/
def CHUNK_SIZE : Nat := 500

/-- Configuration `CHUNK_OVERLAP = 50` (rag_pipeline.py line 17). -/
def CHUNK_OVERLAP : Nat := 50

/-- Configuration `COLLECTION_NAME = "resume_collection"` (rag_pipeline.py line 18). -/
def COLLECTION_NAME : String := "resume_collection"

/-- Configuration `CHROMA_PERSIST_DIR = "./chroma_db"` (rag_pipeline.py line 19). -/
def CHROMA_PERSIST_DIR : String := "./chroma_db"

/-- The separator list passed to `RecursiveCharacterTextSplitter`
(rag_pipeline.py line 43): `["\n\n", "\n", " ", ""]`. -/
def SEPARATORS : List PyStr := [['\n', '\n'], ['\n'], [' '], []]

/-- The method `RecursiveCharacterTextSplitter.split_text` as configured in
`load_and_chunk_pdf` (rag_pipeline.py lines 39-46). -/
def split_text (text : PyStr) : List PyStr :=
  splitTextF CHUNK_SIZE CHUNK_OVERLAP SEPARATORS.length SEPARATORS text

/-! Data model: loader output and chunk documents. -/

/-- The metadata dict attached to a langchain `Document` in this pipeline.
`PyPDFLoader` sets `{"source": path, "page": i}`; only the page index is
consumed downstream (`answer_with_rag` reads `metadata.get("page", 0)`),
so `page` is optional, as a dict key is. -/
structure Metadata where
  page : Option Nat
  deriving DecidableEq, Repr

/-- A langchain `Document`: page content plus metadata. -/
structure Document where
  page_content : PyStr
  metadata : Metadata
  deriving DecidableEq, Repr

/-- The method `TextSplitter.split_documents` / `create_documents`: each chunk of
each input document's text becomes a new `Document` carrying a (deep)
copy of that input document's metadata. -/
def split_documents (docs : List Document) : List Document :=
  docs.flatMap (fun d =>
    (split_text d.page_content).map (fun c => { page_content := c, metadata := d.metadata }))

/-- Modelled from the spec: `PyPDFLoader` is an external library
(not under src); §2/§3 of the spec: the loader "extracts per-page text",
producing one `Page` per physical page, "plain text plus a zero-based
page index". The raw document is abstracted as its list of page texts. -/
def pyPdfLoad (pageTexts : List PyStr) : List Document :=
  pageTexts.enum.map (fun p => { page_content := p.2, metadata := { page := some p.1 } })

/-- Function `load_and_chunk_pdf` (rag_pipeline.py lines 21-49): load the PDF page
by page, then split with the configured `RecursiveCharacterTextSplitter`. -/
def load_and_chunk_pdf (pageTexts : List PyStr) : List Document :=
  split_documents (pyPdfLoad pageTexts)

/-! Error taxonomy (spec §7) and Python runtime errors. -/

/-- The spec's error taxonomy (§7). `str` is Python `str(e)`: the
underlying cause message. -/
inductive PipelineError where
  | documentLoadError (msg : String)
  | embeddingServiceError (msg : String)
  | generationServiceError (msg : String)
  | configurationError (msg : String)
  deriving DecidableEq, Repr

/-- Python `str(e)` for the typed errors: the cause message. -/
def PipelineError.str : PipelineError → String
  | .documentLoadError m => m
  | .embeddingServiceError m => m
  | .generationServiceError m => m
  | .configurationError m => m

/-- Python runtime errors raised by slips in the source itself. -/
inductive PyRuntimeError where
  | nameError (name : String)
  | attributeError (typeName attr : String)
  deriving DecidableEq, Repr

/-! Vector index (Chroma) and embedding client. -/

/-- Modelled from the spec: Chroma is an external library (not under
src). Spec §4.3: the persistent index is a map from collection name to
the entries of that collection, "persisted in the Vector Index under a
named collection". -/
def ChromaDB : Type := String → Option (List Document)

/-- Modelled from the spec: §4.3 `search` returns entries "drawn from the
same collection"; this is the retrievability abstraction — an entry is
retrievable exactly when it is among the named collection's entries. -/
def chroma_search (db : ChromaDB) (name : String) : List Document :=
  (db name).getD []

/-- Modelled from the spec: the OpenAI embedding client is external
(§4.2/§6). It "requires an access credential" — a call without one fails
with a configuration error at first use — and otherwise embeds each text
via the external service (a parameter here), which may fail with
`EmbeddingServiceError`; "on transport or quota failure ... index build
aborts; no partial index is committed". -/
def openai_embed (api_key : Option String)
    (service : PyStr → Except PipelineError (List Int))
    (texts : List PyStr) : Except PipelineError (List (List Int)) :=
  match api_key with
  | none => .error (.configurationError "OPENAI_API_KEY is not set")
  | some _ => texts.mapM service

/-- Function `create_vector_store` (rag_pipeline.py lines 51-83): embed the chunks
with `OpenAIEmbeddings` and build the named collection with
`Chroma.from_documents(collection_name=COLLECTION_NAME, ...)`.
`Chroma.from_documents` is modelled from the spec (§4.3): it "creates or
overwrites the named collection with one entry per passage"; an
embedding failure aborts with no collection committed (§4.2). -/
def create_vector_store (api_key : Option String)
    (service : PyStr → Except PipelineError (List Int))
    (chunks : List Document) (db : ChromaDB) : Except PipelineError ChromaDB :=
  match openai_embed api_key service (chunks.map Document.page_content) with
  | .error e => .error e
  | .ok _ => .ok (fun n => if n = COLLECTION_NAME then some chunks else db n)

/-- The `RetrievalQA` chain built by `build_rag_chain` (rag_pipeline.py
lines 101-160): a retriever over the vector store with `k = 4` and
`return_source_documents=True`. -/
structure RetrievalQA where
  store : ChromaDB
  search_k : Nat
  return_source_documents : Bool

/-- Function `build_rag_chain` (rag_pipeline.py lines 101-160): `k=4` most
relevant chunks per question, `return_source_documents=True`. -/
def build_rag_chain (store : ChromaDB) : RetrievalQA :=
  { store := store, search_k := 4, return_source_documents := true }

/-! `process_uploaded_pdf` (rag_pipeline.py lines 206-226). -/

/-- The observable outcome of `process_uploaded_pdf`: the Python return
value `(rag_chain, chunk_count, success, message)`, the vector-index
state afterwards, and whether the temporary file still exists. -/
structure ProcessOutcome where
  retval : Option RetrievalQA × Nat × Bool × String
  db : ChromaDB
  tmp_file_exists : Bool

/-- Function `process_uploaded_pdf` (rag_pipeline.py lines 206-226).

The uploaded bytes are written to a temporary file (created with
`delete=False`, so it exists until unlinked). The `try` block runs
`load_and_chunk_pdf` (whose PDF-loading outcome on the temp file is the
external loader's and is a parameter here), `create_vector_store` and
`build_rag_chain`; `except Exception as e` catches every exception and
returns `(None, 0, False, f"Error processing PDF: {str(e)}")`; the
`finally` clause unlinks the temporary file on every exit path. The
`Except` in the result type is the channel for exceptions this function
itself would propagate to `app.py` — it catches everything, so the
result is always `.ok`. -/
def process_uploaded_pdf (loadResult : Except PipelineError (List Document))
    (api_key : Option String) (service : PyStr → Except PipelineError (List Int))
    (db : ChromaDB) : Except PipelineError ProcessOutcome :=
  -- with tempfile.NamedTemporaryFile(delete=False): the temp file now exists
  let body : (Option RetrievalQA × Nat × Bool × String) × ChromaDB :=
    -- try:
    match loadResult with
    | .error e => ((none, 0, false, "Error processing PDF: " ++ e.str), db)
    | .ok chunks =>
      match create_vector_store api_key service chunks db with
      | .error e => ((none, 0, false, "Error processing PDF: " ++ e.str), db)
      | .ok db2 =>
        ((some (build_rag_chain db2), chunks.length, true, "Resume processed successfully!"), db2)
  -- finally: os.unlink(tmp_path) — the temp file is gone on every path
  .ok { retval := body.1, db := body.2, tmp_file_exists := false }

/-! Module startup (rag_pipeline.py lines 11-19). -/

/-- The module-level configuration read at import time. -/
structure ModuleConfig where
  openai_api_key : Option String
  chunk_size : Nat
  chunk_overlap : Nat
  collection_name : String
  chroma_persist_dir : String
  deriving DecidableEq, Repr

/-- Module import of rag_pipeline.py (lines 11-19): `load_dotenv()` then
`OPENAI_API_KEY = os.getenv("OPENAI_API_KEY")` and the four constants.
`os.getenv` returns `None` when the variable is absent and never raises;
nothing in the module body validates the credential, so startup cannot
fail (the `Except` is the channel for a startup configuration error —
never used). The environment (including anything loaded from `.env`) is
the function argument. -/
def module_startup (env : String → Option String) : Except PipelineError ModuleConfig :=
  .ok { openai_api_key := env "OPENAI_API_KEY"
      , chunk_size := CHUNK_SIZE
      , chunk_overlap := CHUNK_OVERLAP
      , collection_name := COLLECTION_NAME
      , chroma_persist_dir := CHROMA_PERSIST_DIR }

/-! `load_existing_vector_store` (rag_pipeline.py lines 85-99). -/

/-- The value `load_existing_vector_store` is declared to produce: a
handle onto the persisted collection. -/
structure ChromaHandle where
  collection_name : String
  persist_directory : String
  deriving DecidableEq, Repr

/-- The names bound at module scope of rag_pipeline.py: the imports
(lines 1-9) and the module-level assignments and defs. Note that
`embeddings` is NOT among them — it is only ever a local variable of
`create_vector_store`. -/
def ragPipelineModuleNames : List String :=
  ["os", "load_dotenv", "PyPDFLoader", "RecursiveCharacterTextSplitter",
   "OpenAIEmbeddings", "ChatOpenAI", "Chroma", "RetrievalQA", "PromptTemplate",
   "tempfile", "OPENAI_API_KEY", "CHUNK_SIZE", "CHUNK_OVERLAP",
   "COLLECTION_NAME", "CHROMA_PERSIST_DIR", "load_and_chunk_pdf",
   "create_vector_store", "load_existing_vector_store", "build_rag_chain",
   "answer_with_rag", "answer_without_rag", "process_uploaded_pdf",
   "SUGGESTED_QUESTIONS"]

/-- The local names assigned anywhere in the body of
`load_existing_vector_store` (rag_pipeline.py lines 88 and 93):
`embeddingd` (note the typo) and `vectore_store`. -/
def loadExistingVectorStoreLocals : List String := ["embeddingd", "vectore_store"]

/-- Python name resolution inside a function body: a name resolves if it
is a local of the function or bound at module scope; otherwise the lookup
raises `NameError`. -/
def resolvePyName (locals : List String) (n : String) : Except PyRuntimeError Unit :=
  if n ∈ locals ∨ n ∈ ragPipelineModuleNames then .ok () else .error (.nameError n)

/-- Function `load_existing_vector_store` (rag_pipeline.py lines 85-99), statement
by statement. Line 88 binds `embeddingd := OpenAIEmbeddings(...)`; line
93 evaluates `Chroma(collection_name=COLLECTION_NAME,
embedding_function=embeddings, persist_directory=CHROMA_PERSIST_DIR)`,
whose argument expression `embeddings` is resolved by Python name lookup
at call time. -/
def load_existing_vector_store : Except PyRuntimeError ChromaHandle := do
  -- line 88: embeddingd = OpenAIEmbeddings(openai_api_key=OPENAI_API_KEY, ...)
  let _ ← resolvePyName loadExistingVectorStoreLocals "OpenAIEmbeddings"
  let _ ← resolvePyName loadExistingVectorStoreLocals "OPENAI_API_KEY"
  -- line 93: vectore_store = Chroma(..., embedding_function=embeddings, ...)
  let _ ← resolvePyName loadExistingVectorStoreLocals "Chroma"
  let _ ← resolvePyName loadExistingVectorStoreLocals "COLLECTION_NAME"
  let _ ← resolvePyName loadExistingVectorStoreLocals "embeddings"
  let _ ← resolvePyName loadExistingVectorStoreLocals "CHROMA_PERSIST_DIR"
  .ok { collection_name := COLLECTION_NAME, persist_directory := CHROMA_PERSIST_DIR }

/-! `answer_with_rag` (rag_pipeline.py lines 162-183). -/

/-- One entry of the `sources` list built by `answer_with_rag`:
`{"content": doc.page_content, "page": doc.metadata.get("page", 0)}`. -/
structure SourceEntry where
  content : PyStr
  page : Nat
  deriving DecidableEq, Repr

/-- What `rag_chain.invoke({"query": question})` returns: the generated
`result` and the retrieved `source_documents`. -/
structure ChainResult where
  result : String
  source_documents : List Document

/-- The dict returned by `answer_with_rag`. -/
structure AnswerDict where
  answer : String
  sources : List SourceEntry

/-- Function `answer_with_rag` (rag_pipeline.py lines 162-183). The external
`rag_chain.invoke` is the chain passed as a function of the question. -/
def answer_with_rag (rag_chain : String → ChainResult) (question : String) : AnswerDict :=
  let result := rag_chain question
  { answer := result.result
  , sources := result.source_documents.map (fun doc =>
      { content := doc.page_content, page := doc.metadata.page.getD 0 }) }

/-! `answer_without_rag` (rag_pipeline.py lines 185-204). -/

/-- A Python value as relevant here: either a `str`, or the `AIMessage`
object that a langchain chat model returns. -/
inductive PyValue where
  | str (s : String)
  | aiMessage (content : String)
  deriving DecidableEq, Repr

/-- The class `ChatOpenAI` (from `langchain_openai`) is a chat model: its
`.invoke(prompt)` returns an `AIMessage` object whose text lives in its
`.content` attribute, not a plain string. The external generation
service itself is the `gen` parameter. -/
def chatOpenAI_invoke (gen : String → String) (prompt : String) : PyValue :=
  .aiMessage (gen prompt)

/-- A Python `.strip()` attribute call: `str` has it; `AIMessage` has no
attribute `strip`, so the call raises `AttributeError`. -/
def pyCallStrip : PyValue → Except PyRuntimeError String
  | .str s => .ok s.trim
  | .aiMessage _ => .error (.attributeError "AIMessage" "strip")

/-- The f-string prompt of `answer_without_rag` (rag_pipeline.py lines
198-201), verbatim: it interpolates only the question, carries no
retrieved context, and explicitly states that the resume content is not
available. -/
def answer_without_rag_prompt (question : String) : String :=
  "Answer this question about a resume: " ++ question ++
    "\n\n    Note: You don\x27t have access to the actual resume content.\n    Answer as best you can based on general knowledge only."

/-- Function `answer_without_rag` (rag_pipeline.py lines 185-204): build the
no-context prompt, `response = llm.invoke(prompt)`, then
`return response.strip()`. -/
def answer_without_rag (gen : String → String) (question : String) :
    Except PyRuntimeError String :=
  let prompt := answer_without_rag_prompt question
  let response := chatOpenAI_invoke gen prompt
  pyCallStrip response

/-! Concrete inputs used by counterexamples and witnesses. -/

/-- A 990-character page: 480 `a`s, a paragraph break, 478 `b`s, a
paragraph break, 28 `c`s. Its three split pieces (480, 480 and 30
characters) are each below `CHUNK_SIZE` but the first two exceed
`CHUNK_OVERLAP`, so the merge loop retains no overlap at all between the
first and second emitted chunk. -/
def c6PageText : PyStr :=
  List.replicate 480 'a' ++ ['\n', '\n'] ++ List.replicate 478 'b' ++ ['\n', '\n'] ++
    List.replicate 28 'c'

/-- A tiny page whose text has leading whitespace: `" hi"`. -/
def c7PageText : PyStr := [' ', 'h', 'i']

/-- A sample chunk document. -/
def sampleDoc : Document := { page_content := ['c', 'v'], metadata := { page := some 0 } }

/-- The empty vector-index state: no collection persisted. -/
def emptyDB : ChromaDB := fun _ => none

/-- An embedding service that always fails with a quota error. -/
def failingService : PyStr → Except PipelineError (List Int) :=
  fun _ => .error (.embeddingServiceError "embedding quota exceeded")

/-- An embedding service that always succeeds. -/
def okService : PyStr → Except PipelineError (List Int) := fun _ => .ok [0]

/-- A second sample chunk document, disjoint from `sampleDoc`. -/
def sampleDoc2 : Document := { page_content := ['x'], metadata := { page := some 1 } }

/-- The index state after building `[sampleDoc]` on the empty state. -/
def c1db1 : ChromaDB := fun n => if n = COLLECTION_NAME then some [sampleDoc] else emptyDB n

/-- The index state after rebuilding with `[sampleDoc2]` on top of `c1db1`. -/
def c1db2 : ChromaDB := fun n => if n = COLLECTION_NAME then some [sampleDoc2] else c1db1 n

/-- A sample retrieval chain returning one source document. -/
def sampleChain : String → ChainResult :=
  fun _ => { result := "answer", source_documents := [sampleDoc] }

/-! Helper lemmas about the embedded splitter. -/

theorem intercalate_single (sep : PyStr) (x : PyStr) : List.intercalate sep [x] = x := by
  simp [List.intercalate]

theorem intercalate_cons_ne (sep x : PyStr) {l : List PyStr} (h : l ≠ []) :
    List.intercalate sep (x :: l) = x ++ sep ++ List.intercalate sep l := by
  obtain ⟨y, t, rfl⟩ := List.exists_cons_of_ne_nil h
  simp [List.intercalate, List.intersperse]

theorem isPrefixOf_append {sep : PyStr} :
    ∀ {l : PyStr}, sep.isPrefixOf l = true → sep ++ l.drop sep.length = l := by
  induction sep with
  | nil => intro l _; simp
  | cons a as ih =>
    intro l h
    cases l with
    | nil => simp [List.isPrefixOf] at h
    | cons b bs =>
      simp only [List.isPrefixOf, Bool.and_eq_true, beq_iff_eq] at h
      obtain ⟨rfl, h2⟩ := h
      simpa using ih h2

theorem splitOnGo_ne_nil (sep : PyStr) :
    ∀ fuel text acc, splitOnGo sep fuel text acc ≠ [] := by
  intro fuel
  induction fuel with
  | zero =>
    intro text acc
    cases text <;> simp [splitOnGo]
  | succ fuel ih =>
    intro text acc
    cases text with
    | nil => simp [splitOnGo]
    | cons c rest =>
      rw [splitOnGo]
      by_cases hpre : sep.isPrefixOf (c :: rest)
      · rw [if_pos hpre]; simp
      · rw [if_neg hpre]; exact ih rest (c :: acc)

theorem splitOnGo_intercalate (sep : PyStr) (hsep : sep ≠ []) :
    ∀ fuel text acc, text.length ≤ fuel →
      List.intercalate sep (splitOnGo sep fuel text acc) = acc.reverse ++ text := by
  intro fuel
  induction fuel with
  | zero =>
    intro text acc h
    have ht : text = [] := List.eq_nil_of_length_eq_zero (Nat.le_zero.mp h)
    subst ht
    simp [splitOnGo, intercalate_single]
  | succ fuel ih =>
    intro text acc h
    cases text with
    | nil => simp [splitOnGo, intercalate_single]
    | cons c rest =>
      rw [splitOnGo]
      by_cases hpre : sep.isPrefixOf (c :: rest)
      · rw [if_pos hpre]
        have ht := isPrefixOf_append hpre
        have hlenlen : sep.length + ((c :: rest).drop sep.length).length = rest.length + 1 := by
          have := congrArg List.length ht
          simpa using this
        have hsep1 : 1 ≤ sep.length := by
          cases hs : sep with
          | nil => exact absurd hs hsep
          | cons a b => simp
        have hcr : (c :: rest).length = rest.length + 1 := by simp
        have hlen : ((c :: rest).drop sep.length).length ≤ fuel := by omega
        rw [intercalate_cons_ne sep acc.reverse (splitOnGo_ne_nil sep fuel _ [])]
        rw [ih _ [] hlen]
        simp only [List.reverse_nil, List.nil_append, List.append_assoc]
        rw [ht]
      · rw [if_neg hpre]
        rw [ih rest (c :: acc) (by simpa using Nat.le_of_succ_le_succ h)]
        simp

theorem flatten_filter_ne_nil (l : List PyStr) :
    (l.filter (fun s => s ≠ [])).flatten = l.flatten := by
  induction l with
  | nil => rfl
  | cons x t ih =>
    rw [List.filter_cons]
    simp only [ne_eq, decide_not] at ih
    by_cases hx : x = []
    · subst hx
      simp [ih]
    · simp [hx, ih]

theorem flatten_cons_map_append (sep p : PyStr) (ps : List PyStr) :
    (p :: ps.map (fun q => sep ++ q)).flatten = List.intercalate sep (p :: ps) := by
  induction ps generalizing p with
  | nil => simp [intercalate_single]
  | cons y t ih =>
    rw [intercalate_cons_ne sep p (by simp), ← ih y]
    simp [List.append_assoc]

theorem pySplitOn_intercalate (sep text : PyStr) (hsep : sep ≠ []) :
    List.intercalate sep (pySplitOn sep text) = text := by
  unfold pySplitOn
  rw [if_neg hsep]
  simpa using splitOnGo_intercalate sep hsep text.length text [] (Nat.le_refl _)

theorem splitTextWithSep_flatten (text sep : PyStr) :
    (splitTextWithSep text sep).flatten = text := by
  by_cases hsep : sep = []
  · subst hsep
    simp only [splitTextWithSep, if_pos rfl, flatten_filter_ne_nil]
    induction text with
    | nil => rfl
    | cons c t ih => simpa using ih
  · obtain ⟨p, ps, hshape⟩ : ∃ p ps, pySplitOn sep text = p :: ps := by
      unfold pySplitOn
      rw [if_neg hsep]
      exact List.exists_cons_of_ne_nil (splitOnGo_ne_nil sep text.length text [])
    simp only [splitTextWithSep, if_neg hsep, hshape, flatten_filter_ne_nil]
    rw [flatten_cons_map_append, ← hshape, pySplitOn_intercalate sep text hsep]

theorem length_pyStrip_le (s : PyStr) : (pyStrip s).length ≤ s.length := by
  unfold pyStrip
  calc ((s.dropWhile Char.isWhitespace).reverse.dropWhile Char.isWhitespace).reverse.length
      = ((s.dropWhile Char.isWhitespace).reverse.dropWhile Char.isWhitespace).length := by
        rw [List.length_reverse]
    _ ≤ (s.dropWhile Char.isWhitespace).reverse.length := (List.dropWhile_suffix _).sublist.length_le
    _ = (s.dropWhile Char.isWhitespace).length := by rw [List.length_reverse]
    _ ≤ s.length := (List.dropWhile_suffix _).sublist.length_le

theorem intercalate_nil_flatten (l : List PyStr) : List.intercalate [] l = l.flatten := by
  induction l with
  | nil => simp [List.intercalate]
  | cons x t ih =>
    cases t with
    | nil => simp [intercalate_single]
    | cons y u =>
      rw [intercalate_cons_ne [] x (by simp), ih]
      simp

theorem joinDocs_nil_length {cur : List PyStr} {doc : PyStr} (h : joinDocs [] cur = some doc) :
    doc.length ≤ (cur.map List.length).sum := by
  unfold joinDocs at h
  by_cases hemp : pyStrip (List.intercalate [] cur) = []
  · simp [hemp] at h
  · rw [if_neg hemp] at h
    have hd : doc = pyStrip (List.intercalate [] cur) := (Option.some.inj h).symm
    rw [hd, intercalate_nil_flatten]
    calc (pyStrip cur.flatten).length ≤ cur.flatten.length := length_pyStrip_le _
      _ = (cur.map List.length).sum := by rw [List.length_flatten]

theorem popLoop_spec (cs ov dLen : Nat) :
    ∀ cur total, total = (cur.map List.length).sum →
      (popLoop cs ov 0 dLen cur total).2 = (((popLoop cs ov 0 dLen cur total).1).map List.length).sum ∧
      (popLoop cs ov 0 dLen cur total).2 ≤ ov ∧
      ((popLoop cs ov 0 dLen cur total).2 + dLen ≤ cs ∨ (popLoop cs ov 0 dLen cur total).2 = 0) := by
  intro cur
  induction cur with
  | nil =>
    intro total htot
    simp only [List.map_nil, List.sum_nil] at htot
    subst htot
    simp [popLoop]
  | cons c rest ih =>
    intro total htot
    rw [popLoop]
    simp only [ite_self]
    by_cases hcond : total > ov ∨ (total + dLen + 0 > cs ∧ total > 0)
    · rw [if_pos hcond]
      apply ih
      simp only [List.map_cons, List.sum_cons] at htot
      omega
    · rw [if_neg hcond]
      push_neg at hcond
      exact ⟨htot, hcond.1, by omega⟩

theorem mergeGo_length_le (cs ov : Nat) :
    ∀ ds docs cur total,
      (∀ x ∈ ds, x.length < cs) →
      total = (cur.map List.length).sum →
      total ≤ cs →
      (∀ x ∈ docs, x.length ≤ cs) →
      ∀ c ∈ mergeGo cs ov [] ds docs cur total, c.length ≤ cs := by
  intro ds
  induction ds with
  | nil =>
    intro docs cur total _ htot hle hdocs c hc
    rw [mergeGo] at hc
    rcases List.mem_append.mp hc with h | h
    · exact hdocs c h
    · rcases Option.mem_toList.mp h with hj
      have := joinDocs_nil_length (Option.mem_def.mp hj)
      omega
  | cons d t ih =>
    intro docs cur total hds htot hle hdocs c hc
    have hdlen : d.length < cs := hds d (by simp)
    have hds' : ∀ x ∈ t, x.length < cs := fun x hx => hds x (by simp [hx])
    rw [mergeGo] at hc
    simp only [List.length_nil, ite_self] at hc
    by_cases hcond : total + d.length + 0 > cs
    · rw [if_pos hcond] at hc
      by_cases hcur : cur = []
      · rw [if_pos hcur] at hc
        exact ih docs [d] d.length hds' (by simp) (by omega) hdocs c hc
      · rw [if_neg hcur] at hc
        obtain ⟨hs1, hs2, hs3⟩ := popLoop_spec cs ov d.length cur total htot
        refine ih _ _ _ hds' ?_ ?_ ?_ c hc
        · simp only [List.map_append, List.sum_append, ite_self]
          simp [← hs1]
        · rcases hs3 with h3 | h3 <;> omega
        · intro x hx
          rcases List.mem_append.mp hx with h | h
          · exact hdocs x h
          · have := joinDocs_nil_length (Option.mem_def.mp (Option.mem_toList.mp h))
            omega
    · rw [if_neg hcond] at hc
      refine ih _ _ _ hds' ?_ (by omega) hdocs c hc
      simp only [List.map_append, List.sum_append, ite_self]
      simp [htot]

theorem mergeSplits_length_le (cs ov : Nat) (splits : List PyStr)
    (h : ∀ x ∈ splits, x.length < cs) :
    ∀ c ∈ mergeSplits cs ov [] splits, c.length ≤ cs := by
  exact mergeGo_length_le cs ov splits [] [] 0 h (by simp) (by omega) (by simp)

theorem mergeGo_all_fit (cs ov : Nat) :
    ∀ ds docs cur total,
      total = (cur.map List.length).sum →
      total + (ds.map List.length).sum ≤ cs →
      mergeGo cs ov [] ds docs cur total = docs ++ (joinDocs [] (cur ++ ds)).toList := by
  intro ds
  induction ds with
  | nil =>
    intro docs cur total _ _
    rw [mergeGo, List.append_nil]
  | cons d t ih =>
    intro docs cur total htot hsum
    rw [mergeGo]
    simp only [List.length_nil, ite_self]
    have hsum' : d.length + (t.map List.length).sum = ((d :: t).map List.length).sum := by simp
    have hcond : ¬ (total + d.length + 0 > cs) := by omega
    rw [if_neg hcond]
    rw [ih docs (cur ++ [d]) (total + d.length + 0) (by simp [htot]) (by simp; omega)]
    rw [List.append_assoc]
    simp

theorem mergeSplits_all_fit (cs ov : Nat) (splits : List PyStr)
    (h : (splits.map List.length).sum ≤ cs) :
    mergeSplits cs ov [] splits = (joinDocs [] splits).toList := by
  unfold mergeSplits
  rw [mergeGo_all_fit cs ov splits [] [] 0 (by simp) (by simpa using h)]
  simp

theorem groupSplits_inl_mem (cs : Nat) :
    ∀ splits run, Sum.inl run ∈ groupSplits cs splits →
      ∀ s ∈ run, s ∈ splits ∧ s.length < cs := by
  intro splits
  induction splits with
  | nil =>
    intro run h
    simp [groupSplits] at h
  | cons x rest ih =>
    intro run h s hs
    rw [groupSplits] at h
    by_cases hx : x.length < cs
    · rw [if_pos hx] at h
      rcases hrest : groupSplits cs rest with _ | ⟨g, gs⟩
      · rw [hrest] at h
        simp at h
        subst h
        rcases List.mem_singleton.mp hs with rfl
        exact ⟨by simp, hx⟩
      · rw [hrest] at h
        rcases g with run' | y
        · simp only [List.mem_cons] at h
          rcases h with h | h
          · have : run = x :: run' := by injection h
            subst this
            rcases List.mem_cons.mp hs with rfl | hs'
            · exact ⟨by simp, hx⟩
            · have := ih run' (hrest ▸ List.mem_cons_self _ _) s hs'
              exact ⟨by simp [this.1], this.2⟩
          · have := ih run (hrest ▸ List.mem_cons.mpr (Or.inr h)) s hs
            exact ⟨by simp [this.1], this.2⟩
        · simp only [List.mem_cons] at h
          rcases h with h | h
          · have : run = [x] := by injection h
            subst this
            rcases List.mem_singleton.mp hs with rfl
            exact ⟨by simp, hx⟩
          · have hm : Sum.inl run ∈ groupSplits cs rest := by
              rw [hrest]
              exact List.mem_cons.mpr h
            have := ih run hm s hs
            exact ⟨by simp [this.1], this.2⟩
    · rw [if_neg hx] at h
      simp only [List.mem_cons] at h
      rcases h with h | h
      · exact absurd h (by simp)
      · have := ih run h s hs
        exact ⟨by simp [this.1], this.2⟩

theorem groupSplits_inr_mem (cs : Nat) :
    ∀ splits s, Sum.inr s ∈ groupSplits cs splits → s ∈ splits ∧ cs ≤ s.length := by
  intro splits
  induction splits with
  | nil =>
    intro s h
    simp [groupSplits] at h
  | cons x rest ih =>
    intro s h
    rw [groupSplits] at h
    by_cases hx : x.length < cs
    · rw [if_pos hx] at h
      rcases hrest : groupSplits cs rest with _ | ⟨g, gs⟩
      · rw [hrest] at h
        simp at h
      · rw [hrest] at h
        rcases g with run' | y
        · simp only [List.mem_cons] at h
          rcases h with h | h
          · exact absurd h (by simp)
          · have := ih s (hrest ▸ List.mem_cons.mpr (Or.inr h))
            exact ⟨by simp [this.1], this.2⟩
        · simp only [List.mem_cons] at h
          rcases h with h | h
          · exact absurd h (by simp)
          · have hm : Sum.inr s ∈ groupSplits cs rest := by
              rw [hrest]
              exact List.mem_cons.mpr h
            have := ih s hm
            exact ⟨by simp [this.1], this.2⟩
    · rw [if_neg hx] at h
      simp only [List.mem_cons] at h
      rcases h with h | h
      · have : s = x := by injection h
        subst this
        exact ⟨by simp, by omega⟩
      · have := ih s h
        exact ⟨by simp [this.1], this.2⟩

theorem groupSplits_all_good (cs : Nat) :
    ∀ splits, (∀ s ∈ splits, s.length < cs) → splits ≠ [] →
      groupSplits cs splits = [Sum.inl splits] := by
  intro splits
  induction splits with
  | nil => intro _ h; exact absurd rfl h
  | cons x rest ih =>
    intro hgood _
    rw [groupSplits, if_pos (hgood x (by simp))]
    rcases hr : rest with _ | ⟨y, t⟩
    · simp [groupSplits]
    · rw [← hr, ih (fun s hs => hgood s (by simp [hs])) (by simp [hr])]

theorem chooseSepAux_empty_mem (text dflt : PyStr) :
    ∀ seps, [] ∈ seps →
      ((chooseSepAux text dflt seps).1 = [] ∧ (chooseSepAux text dflt seps).2 = []) ∨
        [] ∈ (chooseSepAux text dflt seps).2 := by
  intro seps
  induction seps with
  | nil => intro h; simp at h
  | cons s rest ih =>
    intro h
    rw [chooseSepAux]
    by_cases hs : s = []
    · rw [if_pos hs]
      exact Or.inl ⟨rfl, rfl⟩
    · rw [if_neg hs]
      have hmem : [] ∈ rest := by
        rcases List.mem_cons.mp h with h' | h'
        · exact absurd h'.symm hs
        · exact h'
      by_cases ho : occursIn s text = true
      · rw [if_pos ho]
        exact Or.inr hmem
      · rw [if_neg ho]
        exact ih hmem

theorem chooseSepAux_sub_length (text dflt : PyStr) :
    ∀ seps, (chooseSepAux text dflt seps).2 ≠ [] →
      (chooseSepAux text dflt seps).2.length < seps.length := by
  intro seps
  induction seps with
  | nil => intro h; exact absurd rfl h
  | cons s rest ih =>
    intro h
    rw [chooseSepAux] at h ⊢
    by_cases hs : s = []
    · rw [if_pos hs] at h
      exact absurd rfl h
    · rw [if_neg hs] at h ⊢
      by_cases ho : occursIn s text = true
      · rw [if_pos ho] at h ⊢
        simp
      · rw [if_neg ho] at h ⊢
        exact Nat.lt_trans (ih h) (by simp)

theorem splitTextWithSep_mem_ne_nil {text sep c : PyStr} (h : c ∈ splitTextWithSep text sep) :
    c ≠ [] := by
  unfold splitTextWithSep at h
  have := List.of_mem_filter h
  simpa using this

theorem splitTextWithSep_mem_length_one {text c : PyStr} (h : c ∈ splitTextWithSep text []) :
    c.length = 1 := by
  unfold splitTextWithSep at h
  rw [if_pos rfl] at h
  have hm := List.mem_of_mem_filter h
  obtain ⟨a, _, rfl⟩ := List.mem_map.mp hm
  rfl

theorem mem_length_le_flatten {l : List PyStr} {c : PyStr} (h : c ∈ l) :
    c.length ≤ l.flatten.length := by
  rw [List.length_flatten]
  exact List.single_le_sum (fun _ _ => Nat.zero_le _) _ (List.mem_map_of_mem List.length h)

theorem eq_singleton_of_big {l : List PyStr} {c text : PyStr}
    (hne : ∀ x ∈ l, x ≠ []) (hfl : l.flatten = text) (hc : c ∈ l)
    (hbig : text.length ≤ c.length) : l = [c] ∧ c = text := by
  obtain ⟨l1, l2, rfl⟩ := List.append_of_mem hc
  have hlen : l1.flatten.length + (c.length + l2.flatten.length) = text.length := by
    have := congrArg List.length hfl
    simpa [List.flatten_append, Nat.add_assoc] using this
  have h1 : l1.flatten.length = 0 ∧ l2.flatten.length = 0 := by omega
  have hl1 : l1 = [] := by
    rcases List.eq_nil_or_concat l1 with rfl | ⟨t, x, rfl⟩
    · rfl
    · have hx : x = [] := by
        have := List.flatten_eq_nil_iff.mp (List.eq_nil_of_length_eq_zero h1.1)
        exact this x (by simp)
      exact absurd hx (hne x (by simp))
  have hl2 : l2 = [] := by
    rcases List.eq_nil_or_concat l2 with rfl | ⟨t, x, rfl⟩
    · rfl
    · have hx : x = [] := by
        have := List.flatten_eq_nil_iff.mp (List.eq_nil_of_length_eq_zero h1.2)
        exact this x (by simp)
      exact absurd hx (hne x (by simp [List.mem_append]))
  subst hl1
  subst hl2
  constructor
  · rfl
  · simpa using hfl

theorem splitTextF_length_le (cs ov : Nat) (hcs : 1 < cs) :
    ∀ fuel seps, seps.length ≤ fuel → [] ∈ seps →
      ∀ text c, c ∈ splitTextF cs ov fuel seps text → c.length ≤ cs := by
  intro fuel
  induction fuel with
  | zero =>
    intro seps _ _ text c hc
    simp [splitTextF] at hc
  | succ fuel ih =>
    intro seps hlen hmem text c hc
    rw [splitTextF] at hc
    simp only [List.mem_flatten, List.mem_map] at hc
    obtain ⟨cl, ⟨g, hg, hcl⟩, hcin⟩ := hc
    subst hcl
    rcases g with run | s
    · have hrun := groupSplits_inl_mem cs _ run hg
      exact mergeSplits_length_le cs ov run (fun x hx => (hrun x hx).2) c hcin
    · have hs := groupSplits_inr_mem cs _ s hg
      have hcin2 : c ∈ (if (chooseSepAux text (seps.getLastD []) seps).2 = [] then [s]
          else splitTextF cs ov fuel (chooseSepAux text (seps.getLastD []) seps).2 s) := hcin
      by_cases hp2 : (chooseSepAux text (seps.getLastD []) seps).2 = []
      · rw [if_pos hp2] at hcin2
        rcases chooseSepAux_empty_mem text (seps.getLastD []) seps hmem with ⟨h1, _⟩ | h2
        · have hone : s.length = 1 := splitTextWithSep_mem_length_one (h1 ▸ hs.1)
          have := hs.2
          omega
        · rw [hp2] at h2
          simp at h2
      · rw [if_neg hp2] at hcin2
        have hlt := chooseSepAux_sub_length text (seps.getLastD []) seps hp2
        rcases chooseSepAux_empty_mem text (seps.getLastD []) seps hmem with ⟨_, h2⟩ | h2
        · exact absurd h2 hp2
        · exact ih _ (by omega) h2 s c hcin2

theorem joinDocs_nil_of_flatten {l : List PyStr} {text : PyStr} (h : l.flatten = text) :
    joinDocs [] l = joinDocs [] [text] := by
  unfold joinDocs
  rw [intercalate_nil_flatten, h, intercalate_single]

theorem splitTextF_short (cs ov : Nat) (hcs : 1 < cs) :
    ∀ fuel seps, seps.length ≤ fuel → [] ∈ seps →
      ∀ text, text.length ≤ cs →
        splitTextF cs ov fuel seps text = (joinDocs [] [text]).toList := by
  intro fuel
  induction fuel with
  | zero =>
    intro seps hlen hmem
    have : seps ≠ [] := List.ne_nil_of_mem hmem
    have : 0 < seps.length := List.length_pos.mpr this
    omega
  | succ fuel ih =>
    intro seps hlen hmem text htext
    rw [splitTextF]
    have hflat : (splitTextWithSep text (chooseSepAux text (seps.getLastD []) seps).1).flatten = text :=
      splitTextWithSep_flatten text _
    by_cases hgood : ∀ x ∈ splitTextWithSep text (chooseSepAux text (seps.getLastD []) seps).1,
        x.length < cs
    · rcases hpieces : splitTextWithSep text (chooseSepAux text (seps.getLastD []) seps).1 with
        _ | ⟨p, ps⟩
      · -- no pieces: text is empty
        have htext0 : text = [] := by
          rw [← hflat, hpieces]
          rfl
        simp [groupSplits, joinDocs, htext0, intercalate_single, pyStrip]
      · have hf2 : (p :: ps).flatten = text := by
          rw [← hpieces]
          exact hflat
        have hg2 : ∀ x ∈ p :: ps, x.length < cs := by
          rw [← hpieces]
          exact hgood
        rw [groupSplits_all_good cs (p :: ps) hg2 (by simp)]
        simp only [List.map_cons, List.map_nil, List.flatten_cons, List.flatten_nil,
          List.append_nil]
        have hsum : (((p :: ps).map List.length).sum) ≤ cs := by
          have heq : ((p :: ps).map List.length).sum = text.length := by
            rw [← List.length_flatten, hf2]
          omega
        show mergeSplits cs ov [] (p :: ps) = (joinDocs [] [text]).toList
        rw [mergeSplits_all_fit cs ov (p :: ps) hsum]
        rw [joinDocs_nil_of_flatten hf2]
    · push_neg at hgood
      obtain ⟨x, hx, hxbig⟩ := hgood
      have hxtext : _ ∧ x = text :=
        eq_singleton_of_big (fun y hy => splitTextWithSep_mem_ne_nil hy) hflat hx
          (by omega)
      obtain ⟨hsingle, rfl⟩ := hxtext
      rw [hsingle]
      have hxlen : ¬ (x.length < cs) := by omega
      rw [groupSplits, if_neg hxlen]
      simp only [groupSplits, List.map_cons, List.map_nil, List.flatten_cons, List.flatten_nil,
        List.append_nil]
      show (if (chooseSepAux x (seps.getLastD []) seps).2 = [] then [x]
          else splitTextF cs ov fuel (chooseSepAux x (seps.getLastD []) seps).2 x) =
        (joinDocs [] [x]).toList
      by_cases hp2 : (chooseSepAux x (seps.getLastD []) seps).2 = []
      · rcases chooseSepAux_empty_mem x (seps.getLastD []) seps hmem with ⟨h1, _⟩ | h2
        · have hone : x.length = 1 := splitTextWithSep_mem_length_one (h1 ▸ hx)
          omega
        · rw [hp2] at h2
          simp at h2
      · rw [if_neg hp2]
        have hlt := chooseSepAux_sub_length x (seps.getLastD []) seps hp2
        rcases chooseSepAux_empty_mem x (seps.getLastD []) seps hmem with ⟨_, h2⟩ | h2
        · exact absurd h2 hp2
        · exact ih _ (by omega) h2 x htext


/-! Theorems settling the claims. -/

/-- C1: Building the vector index twice under the same collection name with
different passage sets leaves search reflecting only the newest build: the
retrievable entries of the collection are exactly the second passage set, and
an entry of the first build that is not in the second set is no longer
retrievable. (The Chroma build itself is external to src and modelled from the
spec, §4.3 create-or-overwrite.) -/
theorem c1_rebuild_overwrites_collection (db db1 db2 : ChromaDB)
    (cs1 cs2 : List Document) (k1 k2 : Option String)
    (s1 s2 : PyStr → Except PipelineError (List Int))
    (_h1 : create_vector_store k1 s1 cs1 db = .ok db1)
    (h2 : create_vector_store k2 s2 cs2 db1 = .ok db2) :
    chroma_search db2 COLLECTION_NAME = cs2 ∧
      ∀ d ∈ cs1, d ∉ cs2 → d ∉ chroma_search db2 COLLECTION_NAME := by
  unfold create_vector_store at h2
  rcases he : openai_embed k2 s2 (cs2.map Document.page_content) with e | v
  · rw [he] at h2
    exact Except.noConfusion h2
  · rw [he] at h2
    injection h2 with h2
    subst h2
    constructor
    · simp [chroma_search]
    · intro d _ hd
      simp [chroma_search, hd]

/-- Witness for C1 at a concrete pair of builds. -/
theorem c1_rebuild_overwrites_collection_witness :
    chroma_search c1db2 COLLECTION_NAME = [sampleDoc2] ∧
      ∀ d ∈ [sampleDoc], d ∉ [sampleDoc2] → d ∉ chroma_search c1db2 COLLECTION_NAME :=
  c1_rebuild_overwrites_collection emptyDB c1db1 c1db2 [sampleDoc] [sampleDoc2]
    (some "sk-test") (some "sk-test") okService okService rfl rfl

/-- C2 counterexample: when the embedding service fails during a build,
`process_uploaded_pdf` does NOT surface the typed `EmbeddingServiceError` to
its caller — the `except Exception` clause catches it and the function returns
normally, so there is no message for which the call evaluates to that typed
error. -/
theorem c2_embedding_failure_counterexample :
    ¬ ∃ msg, process_uploaded_pdf (.ok [sampleDoc]) (some "sk-test") failingService emptyDB =
      .error (.embeddingServiceError msg) := by
  rintro ⟨msg, h⟩
  exact Except.noConfusion h

/-- C2 (amended): an embedding-service failure during the build aborts the
build with no collection created or overwritten (the index state is returned
unchanged), but the failure is reduced to the untyped message
`"Error processing PDF: " ++ str(e)` in a `(None, 0, False, message)` return,
not surfaced as a typed error. -/
theorem c2_embedding_failure_untyped_message (d : Document) (rest : List Document)
    (db : ChromaDB) (msg k : String) :
    process_uploaded_pdf (.ok (d :: rest)) (some k)
      (fun _ => .error (.embeddingServiceError msg)) db =
    .ok { retval := (none, 0, false, "Error processing PDF: " ++ msg)
        , db := db, tmp_file_exists := false } := rfl

/-- C3: `load_existing_vector_store` never returns a usable handle — every
call raises `NameError` on the name `embeddings` (line 95), because line 88
bound the misspelled local `embeddingd` and no scope in rag_pipeline.py binds
`embeddings`. -/
theorem c3_load_existing_vector_store_name_error :
    load_existing_vector_store = .error (.nameError "embeddings") ∧
      "embeddings" ∉ loadExistingVectorStoreLocals ∧
      "embeddings" ∉ ragPipelineModuleNames :=
  ⟨rfl, by decide, by decide⟩

/-- C4 counterexample: with the credential absent from the environment,
module startup does not fail — `os.getenv` returns `None` and nothing
validates it, so there is no configuration error at startup. -/
theorem c4_missing_credential_counterexample :
    ¬ ∃ e, module_startup (fun _ => none) = .error e := by
  rintro ⟨e, h⟩
  exact Except.noConfusion h

/-- C4 (amended): with the credential absent, startup succeeds with
`OPENAI_API_KEY = None`; the failure is deferred to the first embedding
service call, which then fails with a configuration error. -/
theorem c4_missing_credential_deferred (env : String → Option String)
    (h : env "OPENAI_API_KEY" = none) :
    module_startup env =
      .ok ⟨none, CHUNK_SIZE, CHUNK_OVERLAP, COLLECTION_NAME, CHROMA_PERSIST_DIR⟩ ∧
    ∀ svc texts, openai_embed (env "OPENAI_API_KEY") svc texts =
      .error (.configurationError "OPENAI_API_KEY is not set") := by
  constructor
  · simp [module_startup, h]
  · intro svc texts
    rw [h]
    rfl

/-- Witness for C4 (amended) at the empty environment. -/
theorem c4_missing_credential_deferred_witness :
    ((fun _ : String => (none : Option String)) "OPENAI_API_KEY" = none) ∧
    (module_startup (fun _ => none) =
      .ok ⟨none, CHUNK_SIZE, CHUNK_OVERLAP, COLLECTION_NAME, CHROMA_PERSIST_DIR⟩ ∧
    ∀ svc texts, openai_embed ((fun _ : String => (none : Option String)) "OPENAI_API_KEY")
        svc texts = .error (.configurationError "OPENAI_API_KEY is not set")) :=
  ⟨rfl, c4_missing_credential_deferred (fun _ => none) rfl⟩

/-- C5: `answer_without_rag` never returns an answer string — for every
generation service and every question it raises `AttributeError`, because
`ChatOpenAI.invoke` returns an `AIMessage` object and line 204 calls
`.strip()` on it (the intended code is `response.content.strip()`). -/
theorem c5_answer_without_rag_attribute_error (gen : String → String) (question : String) :
    answer_without_rag gen question = .error (.attributeError "AIMessage" "strip") := rfl

/-- C6 counterexample: on the 990-character page `c6PageText` the splitter
emits the chunks `[480 times a, 478 times b, 28 times c]`; the first two are
chunk-adjacent, the second is not the final passage of the page, and they
share no common region of length at least `CHUNK_OVERLAP` (they share none at
all), refuting the claimed overlap invariant. -/
theorem c6_overlap_counterexample :
    ¬ (∀ pre a b post, split_text c6PageText = pre ++ a :: b :: post → post ≠ [] →
        ∃ l, CHUNK_OVERLAP ≤ l ∧ l ≤ a.length ∧ l ≤ b.length ∧
          a.drop (a.length - l) = b.take l) := by
  intro h
  obtain ⟨l, h50, hla, hlb, heq⟩ :=
    h [] (List.replicate 480 'a') (List.replicate 478 'b') [List.replicate 28 'c']
      (by decide) (by decide)
  rw [List.length_replicate] at hla heq
  have h0 : (0 : Nat) < l := lt_of_lt_of_le (by decide) h50
  have hlhs : ((List.replicate 480 'a').drop (480 - l))[0]? = some 'a' := by
    rw [List.getElem?_drop]
    simp only [List.getElem?_replicate]
    rw [if_pos (show 480 - l + 0 < 480 by omega)]
  have hrhs : ((List.replicate 478 'b').take l)[0]? = some 'b' := by
    rw [List.getElem?_take]
    simp only [List.getElem?_replicate]
    rw [if_pos h0, if_pos (show (0 : Nat) < 478 by decide)]
  rw [heq, hrhs] at hlhs
  simp at hlhs

/-- C6 (amended): the length half of the invariant holds — every passage the
configured splitter produces has length at most `CHUNK_SIZE` — but the overlap
half does not hold in general: the merge loop retains at most `CHUNK_OVERLAP`
trailing characters and retains none when the preceding split unit is itself
longer than `CHUNK_OVERLAP`, so adjacent passages may share no overlap. -/
theorem c6_chunk_length_le_chunk_size (text c : PyStr) (hc : c ∈ split_text text) :
    c.length ≤ CHUNK_SIZE :=
  splitTextF_length_le CHUNK_SIZE CHUNK_OVERLAP (by decide) SEPARATORS.length SEPARATORS
    (Nat.le_refl _) (by decide) text c hc

/-- Witness for C6 (amended) at a concrete page. -/
theorem c6_chunk_length_le_chunk_size_witness :
    ['h', 'i'] ∈ split_text ['h', 'i'] ∧ (['h', 'i'] : PyStr).length ≤ CHUNK_SIZE :=
  ⟨by decide, c6_chunk_length_le_chunk_size ['h', 'i'] ['h', 'i'] (by decide)⟩

/-- C7 counterexample: the page `" hi"` has length 3 ≤ `CHUNK_SIZE`, but
chunking it does not yield one passage equal to the page text — the splitter
strips surrounding whitespace, yielding `["hi"]`. -/
theorem c7_short_page_counterexample :
    c7PageText.length ≤ CHUNK_SIZE ∧ split_text c7PageText ≠ [c7PageText] := by
  decide

/-- C7 (amended): a page whose text length is at most `CHUNK_SIZE` yields at
most one passage: none when the text is whitespace-only (in particular when
the page is empty), and otherwise exactly one passage equal to the page text
stripped of leading and trailing whitespace. -/
theorem c7_short_page_single_stripped_passage (text : PyStr)
    (h : text.length ≤ CHUNK_SIZE) :
    split_text text = if pyStrip text = [] then [] else [pyStrip text] := by
  have hmain := splitTextF_short CHUNK_SIZE CHUNK_OVERLAP (by decide) SEPARATORS.length
    SEPARATORS (Nat.le_refl _) (by decide) text h
  rw [split_text, hmain, joinDocs, intercalate_single]
  by_cases hs : pyStrip text = []
  · rw [if_pos hs, if_pos hs]
    rfl
  · rw [if_neg hs, if_neg hs]
    rfl

/-- Witness for C7 (amended) at the concrete page `" hi"`. -/
theorem c7_short_page_single_stripped_passage_witness :
    ((' ' :: 'h' :: 'i' :: []).length ≤ CHUNK_SIZE) ∧
      split_text (' ' :: 'h' :: 'i' :: []) =
        (if pyStrip (' ' :: 'h' :: 'i' :: []) = [] then []
          else [pyStrip (' ' :: 'h' :: 'i' :: [])]) :=
  ⟨by decide, c7_short_page_single_stripped_passage (' ' :: 'h' :: 'i' :: []) (by decide)⟩

/-- C8: every passage produced by `load_and_chunk_pdf` carries as its page
metadata the zero-based index of the page it was chunked from (its content is
a chunk of exactly that page's text, so passages never span two pages), and
`answer_with_rag` carries a retrieved document's page index through unchanged
into the reported sources. -/
theorem c8_passage_page_roundtrip (pageTexts : List PyStr) (p : Document)
    (hp : p ∈ load_and_chunk_pdf pageTexts) (rag_chain : String → ChainResult)
    (q : String) (j : Nat) (d : Document) (i : Nat)
    (hd : (rag_chain q).source_documents[j]? = some d)
    (hpage : d.metadata.page = some i) :
    (∃ k t, p.metadata.page = some k ∧ pageTexts[k]? = some t ∧
      p.page_content ∈ split_text t) ∧
    (answer_with_rag rag_chain q).sources[j]? =
      some { content := d.page_content, page := i } := by
  constructor
  · unfold load_and_chunk_pdf split_documents pyPdfLoad at hp
    simp only [List.mem_flatMap, List.mem_map] at hp
    obtain ⟨dd, ⟨⟨k, t⟩, hkt, hdd⟩, c, hc, hp⟩ := hp
    subst hdd
    subst hp
    rw [List.mk_mem_enum_iff_getElem?] at hkt
    exact ⟨k, t, rfl, hkt, hc⟩
  · simp [answer_with_rag, List.getElem?_map, hd, hpage]

/-- Witness for C8 at a one-page document and a one-document retrieval. -/
theorem c8_passage_page_roundtrip_witness :
    ((∃ k t, sampleDoc.metadata.page = some k ∧ [(['c', 'v'] : PyStr)][k]? = some t ∧
        sampleDoc.page_content ∈ split_text t) ∧
      (answer_with_rag sampleChain "q").sources[0]? =
        some { content := sampleDoc.page_content, page := 0 }) :=
  c8_passage_page_roundtrip [['c', 'v']] sampleDoc (by decide) sampleChain "q" 0 sampleDoc 0
    rfl rfl

/-- C9: `process_uploaded_pdf` deletes the temporary file on every exit path
of the processing phase — whatever the outcomes of loading, chunking,
embedding and index build, the function returns (it never propagates an
exception) and the temporary file no longer exists. -/
theorem c9_tmp_file_deleted_on_every_path (loadResult : Except PipelineError (List Document))
    (k : Option String) (svc : PyStr → Except PipelineError (List Int)) (db : ChromaDB) :
    ∃ out, process_uploaded_pdf loadResult k svc db = .ok out ∧
      out.tmp_file_exists = false :=
  ⟨_, rfl, rfl⟩

/-- C10: the dict returned by `answer_with_rag` has one source entry per
retrieved document in retrieval order, with `content` equal to the document's
text and `page` equal to its page metadata, defaulting to 0 when the metadata
has no page. -/
theorem c10_answer_with_rag_sources (rag_chain : String → ChainResult) (q : String)
    (i : Nat) (doc : Document)
    (hdoc : (rag_chain q).source_documents[i]? = some doc) :
    (answer_with_rag rag_chain q).answer = (rag_chain q).result ∧
    (answer_with_rag rag_chain q).sources.length = (rag_chain q).source_documents.length ∧
    (answer_with_rag rag_chain q).sources[i]? =
      some { content := doc.page_content, page := doc.metadata.page.getD 0 } ∧
    (doc.metadata.page = none →
      (answer_with_rag rag_chain q).sources[i]? =
        some { content := doc.page_content, page := 0 }) := by
  refine ⟨rfl, by simp [answer_with_rag], ?_, ?_⟩
  · simp [answer_with_rag, List.getElem?_map, hdoc]
  · intro hnone
    simp [answer_with_rag, List.getElem?_map, hdoc, hnone]

/-- Witness for C10 at a concrete chain result. -/
theorem c10_answer_with_rag_sources_witness :
    (answer_with_rag sampleChain "q").answer = (sampleChain "q").result ∧
    (answer_with_rag sampleChain "q").sources.length =
      (sampleChain "q").source_documents.length ∧
    (answer_with_rag sampleChain "q").sources[0]? =
      some { content := sampleDoc.page_content, page := sampleDoc.metadata.page.getD 0 } ∧
    (sampleDoc.metadata.page = none →
      (answer_with_rag sampleChain "q").sources[0]? =
        some { content := sampleDoc.page_content, page := 0 }) :=
  c10_answer_with_rag_sources sampleChain "q" 0 sampleDoc rfl
